import Mathlib

/-!
Shallow embedding of the module-injection helpers of `lib/modules/__init__.py`
(my-avbroot-setup): host ABI resolution, zip payload extraction,
seapp_contexts appending and the idempotent ueventd CIL persistence patch,
together with theorems settling the specification claims about them.

Files are modelled as total maps from paths (lists of components) to optional
string contents; the `ext_fs` dictionary of the source becomes a total map
from partition names to optional filesystem handles.
-/

namespace AvbrootSetup

/-- Embeds Python `str.startswith` at the character-list level:
`listStartsWith pre l` is true when `pre` is an initial segment of `l`. -/
def listStartsWith : List Char → List Char → Bool
  | [], _ => true
  | _ :: _, [] => false
  | a :: as, b :: bs => a == b && listStartsWith as bs

/-- Embeds Python `s.startswith(pre)`. -/
def strStartsWith (s pre : String) : Bool :=
  listStartsWith pre.toList s.toList

/-- Embeds Python substring search on character lists:
`listHasSub needle hay` is true when `needle` occurs contiguously in `hay`. -/
def listHasSub (needle : List Char) : List Char → Bool
  | [] => needle.isEmpty
  | c :: t => listStartsWith needle (c :: t) || listHasSub needle t

/-- Embeds the Python membership test `needle in hay` on strings. -/
def strContains (hay needle : String) : Bool :=
  listHasSub needle.toList hay.toList

/-- Embeds `host_android_abi` from the source: `platform.machine()` is taken
as the explicit argument `arch`; the `ValueError` branch becomes
`Except.error`. -/
def host_android_abi (arch : String) : Except String String :=
  if arch = "x86_64" then
    Except.ok arch
  else if arch = "i386" ∨ arch = "i486" ∨ arch = "i586" ∨ arch = "i686" then
    Except.ok "x86"
  else if arch = "aarch64" then
    Except.ok "arm64-v8a"
  else if strStartsWith arch "armv7" then
    Except.ok "armeabi-v7a"
  else
    Except.error ("Unknown architecture: " ++ arch)

/-- Claim C8: every supported machine-architecture string maps to its
documented Android ABI (`x86_64` to itself, the i386/i486/i586/i686 family to
`x86`, `aarch64` to `arm64-v8a`, strings starting with `armv7` to
`armeabi-v7a`), and every string outside the supported set yields an
unsupported-host error rather than a default. -/
theorem host_android_abi_spec :
    host_android_abi "x86_64" = Except.ok "x86_64" ∧
    (∀ a, (a = "i386" ∨ a = "i486" ∨ a = "i586" ∨ a = "i686") →
      host_android_abi a = Except.ok "x86") ∧
    host_android_abi "aarch64" = Except.ok "arm64-v8a" ∧
    (∀ a, strStartsWith a "armv7" = true →
      host_android_abi a = Except.ok "armeabi-v7a") ∧
    (∀ a, a ≠ "x86_64" → a ≠ "i386" → a ≠ "i486" → a ≠ "i586" → a ≠ "i686" →
      a ≠ "aarch64" → strStartsWith a "armv7" = false →
      host_android_abi a = Except.error ("Unknown architecture: " ++ a)) := by
  refine ⟨rfl, ?_, rfl, ?_, ?_⟩
  · rintro a (rfl | rfl | rfl | rfl) <;> rfl
  · intro a h
    have h1 : a ≠ "x86_64" := by rintro rfl; exact absurd h (by decide)
    have h2 : ¬ (a = "i386" ∨ a = "i486" ∨ a = "i586" ∨ a = "i686") := by
      rintro (rfl | rfl | rfl | rfl) <;> exact absurd h (by decide)
    have h3 : a ≠ "aarch64" := by rintro rfl; exact absurd h (by decide)
    unfold host_android_abi
    rw [if_neg h1, if_neg h2, if_neg h3, if_pos h]
  · intro a h1 h2 h3 h4 h5 h6 h7
    have hor : ¬ (a = "i386" ∨ a = "i486" ∨ a = "i586" ∨ a = "i686") := by
      rintro (rfl | rfl | rfl | rfl) <;> simp_all
    have harm : ¬ (strStartsWith a "armv7" = true) := by
      rw [h7]; exact Bool.false_ne_true
    unfold host_android_abi
    rw [if_neg h1, if_neg hor, if_neg h6, if_neg harm]

/-- Concrete instances of claim C8: a member of the i-family, an armv7-family
string, and the unsupported string `mips`. -/
theorem host_android_abi_spec_witness :
    host_android_abi "i586" = Except.ok "x86" ∧
    host_android_abi "armv7l" = Except.ok "armeabi-v7a" ∧
    host_android_abi "mips" = Except.error ("Unknown architecture: " ++ "mips") :=
  ⟨host_android_abi_spec.2.1 "i586" (Or.inr (Or.inr (Or.inl rfl))),
   host_android_abi_spec.2.2.2.1 "armv7l" (by decide),
   host_android_abi_spec.2.2.2.2 "mips" (by decide) (by decide) (by decide)
     (by decide) (by decide) (by decide) (by decide)⟩

/-- Path inside a partition image, as a list of components. -/
abbrev Path := List String

/-- Contents of the file tree behind one ext-filesystem handle: a total map
from paths to optional file contents (`none` means the file does not exist). -/
abbrev Fs := Path → Option String

/-- The `ext_fs` dictionary of the source: a total map from partition names
to optional handles (`none` means the key is absent from the dictionary). -/
abbrev ExtFsMap := String → Option Fs

/-- Writing (creating or replacing) the file at path `p`. -/
def Fs.write (fs : Fs) (p : Path) (content : String) : Fs :=
  fun q => if q = p then some content else fs q

/-- Updating one entry of the partition-to-handle map. -/
def ExtFsMap.set (m : ExtFsMap) (k : String) (v : Fs) : ExtFsMap :=
  fun q => if q = k then some v else m q

/-- Reading one file out of the map: `none` when the partition handle is
absent or the file does not exist. -/
def getFileInMap (m : ExtFsMap) (part : String) (p : Path) : Option String :=
  match m part with
  | none => none
  | some fs => fs p

/-- The literal marker substring checked by `patch_vendor_cil_for_ueventd`. -/
def markerStr : String := "my-avbroot-setup --compatible-sepolicy"

/-- The `ueventd_firmware_rules` block of the source, byte for byte: a
leading newline, three comment lines (the first being the marker comment),
and the two allow rules, each line newline-terminated. -/
def ueventd_firmware_rules : String :=
  "\n; Added by my-avbroot-setup --compatible-sepolicy\n; Allow ueventd to access vendor firmware files during boot\n; Fixes bootloop from IPA/firmware loading failures during Custota updates\n(allow ueventd vendor_firmware_file (file (read open getattr)))\n(allow ueventd vendor_firmware_file (dir (read open search)))\n"

/-- The fixed path of the vendor CIL file. -/
def vendorCilPath : Path := ["vendor", "etc", "selinux", "vendor_sepolicy.cil"]

/-- The fixed path of the odm CIL file. -/
def odmCilPath : Path := ["odm", "etc", "selinux", "odm_sepolicy.cil"]

/-- The per-file body of `patch_vendor_cil_for_ueventd`: if the file at `p`
does not exist, log only; if its text already contains the marker, log only;
otherwise append the rule block to it. -/
def patchCilOne (fs : Fs) (p : Path) : Fs :=
  match fs p with
  | none => fs
  | some content =>
    if strContains content markerStr then fs
    else Fs.write fs p (content ++ ueventd_firmware_rules)

/-- The per-partition step of `patch_vendor_cil_for_ueventd`: skip when the
partition key is absent from `ext_fs`, otherwise patch its CIL file. -/
def patchPartCil (m : ExtFsMap) (part : String) (p : Path) : ExtFsMap :=
  match m part with
  | none => m
  | some fs => ExtFsMap.set m part (patchCilOne fs p)

/-- Embeds `patch_vendor_cil_for_ueventd`: always attempt the vendor CIL,
then attempt the odm CIL only when `compatible_sepolicy` is set. -/
def patch_vendor_cil_for_ueventd (m : ExtFsMap) (compatible_sepolicy : Bool) :
    ExtFsMap :=
  let m1 := patchPartCil m "vendor" vendorCilPath
  if compatible_sepolicy then patchPartCil m1 "odm" odmCilPath else m1

lemma fs_write_self (fs : Fs) (p : Path) (c : String) :
    Fs.write fs p c p = some c := by
  simp [Fs.write]

lemma extFsMap_set_self (m : ExtFsMap) (k : String) (v : Fs) :
    ExtFsMap.set m k v k = some v := by
  simp [ExtFsMap.set]

lemma extFsMap_set_other (m : ExtFsMap) (k : String) (v : Fs) (q : String)
    (h : q ≠ k) : ExtFsMap.set m k v q = m q := by
  simp [ExtFsMap.set, h]

lemma extFsMap_set_eq_self (m : ExtFsMap) (k : String) (v : Fs)
    (h : m k = some v) : ExtFsMap.set m k v = m := by
  funext q
  by_cases hq : q = k
  · subst hq; rw [extFsMap_set_self, h]
  · exact extFsMap_set_other m k v q hq

lemma listHasSub_append_right (n ys : List Char) (h : listHasSub n ys = true)
    (xs : List Char) : listHasSub n (xs ++ ys) = true := by
  induction xs with
  | nil => simpa using h
  | cons a t ih =>
    show (listStartsWith n (a :: (t ++ ys)) || listHasSub n (t ++ ys)) = true
    rw [ih]
    exact Bool.or_true _

lemma marker_in_rules :
    listHasSub markerStr.toList ueventd_firmware_rules.toList = true := by
  decide

lemma strContains_append_rules (s : String) :
    strContains (s ++ ueventd_firmware_rules) markerStr = true := by
  unfold strContains
  rw [show (s ++ ueventd_firmware_rules).toList
        = s.toList ++ ueventd_firmware_rules.toList from rfl]
  exact listHasSub_append_right _ _ marker_in_rules _

lemma patchCilOne_of_missing (fs : Fs) (p : Path) (h : fs p = none) :
    patchCilOne fs p = fs := by
  simp [patchCilOne, h]

lemma patchCilOne_of_marker (fs : Fs) (p : Path) (content : String)
    (h : fs p = some content) (hm : strContains content markerStr = true) :
    patchCilOne fs p = fs := by
  simp [patchCilOne, h, hm]

lemma patchCilOne_of_fresh (fs : Fs) (p : Path) (content : String)
    (h : fs p = some content) (hm : strContains content markerStr = false) :
    patchCilOne fs p = Fs.write fs p (content ++ ueventd_firmware_rules) := by
  simp [patchCilOne, h, hm]

lemma patchCilOne_idem (fs : Fs) (p : Path) :
    patchCilOne (patchCilOne fs p) p = patchCilOne fs p := by
  cases h : fs p with
  | none =>
    have h1 := patchCilOne_of_missing fs p h
    rw [h1]; exact h1
  | some content =>
    by_cases hm : strContains content markerStr = true
    · have h1 := patchCilOne_of_marker fs p content h hm
      rw [h1]; exact h1
    · have h1 := patchCilOne_of_fresh fs p content h
        (by simpa using hm)
      rw [h1]
      exact patchCilOne_of_marker _ _ _ (fs_write_self fs p _)
        (strContains_append_rules content)

lemma patchPartCil_lookup_self (m : ExtFsMap) (part : String) (p : Path) :
    patchPartCil m part p part
      = Option.map (fun fs => patchCilOne fs p) (m part) := by
  cases h : m part with
  | none => simp [patchPartCil, h]
  | some fs => simp [patchPartCil, h, extFsMap_set_self]

lemma patchPartCil_lookup_other (m : ExtFsMap) (part : String) (p : Path)
    (q : String) (h : q ≠ part) : patchPartCil m part p q = m q := by
  cases hm : m part with
  | none => simp [patchPartCil, hm]
  | some fs => simp [patchPartCil, hm, ExtFsMap.set, h]

lemma patchPartCil_of_fixed (M : ExtFsMap) (part : String) (p : Path)
    (h : ∀ fs, M part = some fs → patchCilOne fs p = fs) :
    patchPartCil M part p = M := by
  cases hM : M part with
  | none => unfold patchPartCil; rw [hM]
  | some fs =>
    unfold patchPartCil
    rw [hM]
    show ExtFsMap.set M part (patchCilOne fs p) = M
    rw [h fs hM]
    exact extFsMap_set_eq_self M part fs hM

lemma patchPartCil_idem (m : ExtFsMap) (part : String) (p : Path) :
    patchPartCil (patchPartCil m part p) part p = patchPartCil m part p := by
  apply patchPartCil_of_fixed
  intro fs hfs
  rw [patchPartCil_lookup_self] at hfs
  obtain ⟨fs0, _, rfl⟩ := Option.map_eq_some'.mp hfs
  exact patchCilOne_idem fs0 p

/-- Claim C1: for every ext-filesystem handle map and every value of the
compatible-sepolicy flag, running `patch_vendor_cil_for_ueventd` twice yields
exactly the same filesystem state as running it once: the second run finds
the marker already present (or the file still absent) and changes nothing. -/
theorem patch_vendor_cil_idempotent (m : ExtFsMap) (c : Bool) :
    patch_vendor_cil_for_ueventd (patch_vendor_cil_for_ueventd m c) c
      = patch_vendor_cil_for_ueventd m c := by
  cases c with
  | false =>
    show patchPartCil (patchPartCil m "vendor" vendorCilPath) "vendor"
        vendorCilPath = patchPartCil m "vendor" vendorCilPath
    exact patchPartCil_idem m "vendor" vendorCilPath
  | true =>
    show patchPartCil (patchPartCil
        (patchPartCil (patchPartCil m "vendor" vendorCilPath) "odm" odmCilPath)
        "vendor" vendorCilPath) "odm" odmCilPath
      = patchPartCil (patchPartCil m "vendor" vendorCilPath) "odm" odmCilPath
    have hv : patchPartCil
        (patchPartCil (patchPartCil m "vendor" vendorCilPath) "odm" odmCilPath)
        "vendor" vendorCilPath
        = patchPartCil (patchPartCil m "vendor" vendorCilPath) "odm"
            odmCilPath := by
      apply patchPartCil_of_fixed
      intro fs hfs
      rw [patchPartCil_lookup_other _ _ _ _ (by decide),
        patchPartCil_lookup_self] at hfs
      obtain ⟨fs0, _, rfl⟩ := Option.map_eq_some'.mp hfs
      exact patchCilOne_idem fs0 vendorCilPath
    rw [hv]
    apply patchPartCil_of_fixed
    intro fs hfs
    rw [patchPartCil_lookup_self] at hfs
    obtain ⟨fs0, _, rfl⟩ := Option.map_eq_some'.mp hfs
    exact patchCilOne_idem fs0 odmCilPath

/-- Claim C3: with the compatible-sepolicy flag false, the odm CIL file is
left with exactly the bytes it had before the call, whatever the handle map
contains. -/
theorem patch_vendor_cil_odm_untouched_when_disabled (m : ExtFsMap) :
    getFileInMap (patch_vendor_cil_for_ueventd m false) "odm" odmCilPath
      = getFileInMap m "odm" odmCilPath := by
  show getFileInMap (patchPartCil m "vendor" vendorCilPath) "odm" odmCilPath
      = getFileInMap m "odm" odmCilPath
  unfold getFileInMap
  rw [patchPartCil_lookup_other _ _ _ _ (by decide)]

/-- Claim C2: in compatible-sepolicy mode, with both handles present and both
CIL files existing without the marker, one run appends exactly the fixed rule
block to each file, and inside that block the marker comment precedes the
allow rules. -/
theorem patch_vendor_cil_single_run
    (m : ExtFsMap) (vfs ofs : Fs) (vc oc : String)
    (hv : m "vendor" = some vfs) (ho : m "odm" = some ofs)
    (hvc : vfs vendorCilPath = some vc) (hoc : ofs odmCilPath = some oc)
    (hvm : strContains vc markerStr = false)
    (hom : strContains oc markerStr = false) :
    getFileInMap (patch_vendor_cil_for_ueventd m true) "vendor" vendorCilPath
        = some (vc ++ ueventd_firmware_rules) ∧
    getFileInMap (patch_vendor_cil_for_ueventd m true) "odm" odmCilPath
        = some (oc ++ ueventd_firmware_rules) ∧
    ∃ pre post : String, ueventd_firmware_rules = pre ++ post ∧
      strContains pre markerStr = true ∧
      strStartsWith post "(allow" = true := by
  have hvendor : patch_vendor_cil_for_ueventd m true "vendor"
      = some (Fs.write vfs vendorCilPath (vc ++ ueventd_firmware_rules)) := by
    show patchPartCil (patchPartCil m "vendor" vendorCilPath) "odm" odmCilPath
        "vendor" = _
    rw [patchPartCil_lookup_other _ _ _ _ (by decide),
      patchPartCil_lookup_self, hv]
    simp [patchCilOne_of_fresh vfs vendorCilPath vc hvc hvm]
  have hodm : patch_vendor_cil_for_ueventd m true "odm"
      = some (Fs.write ofs odmCilPath (oc ++ ueventd_firmware_rules)) := by
    show patchPartCil (patchPartCil m "vendor" vendorCilPath) "odm" odmCilPath
        "odm" = _
    rw [patchPartCil_lookup_self,
      patchPartCil_lookup_other _ _ _ _ (by decide), ho]
    simp [patchCilOne_of_fresh ofs odmCilPath oc hoc hom]
  refine ⟨?_, ?_,
    "\n; Added by my-avbroot-setup --compatible-sepolicy\n; Allow ueventd to access vendor firmware files during boot\n; Fixes bootloop from IPA/firmware loading failures during Custota updates\n",
    "(allow ueventd vendor_firmware_file (file (read open getattr)))\n(allow ueventd vendor_firmware_file (dir (read open search)))\n",
    rfl, by decide, by decide⟩
  · simp [getFileInMap, hvendor, fs_write_self]
  · simp [getFileInMap, hodm, fs_write_self]

/-- Handle whose tree holds a single unpatched vendor CIL file. -/
def vfsW : Fs := fun p => if p = vendorCilPath then some "vbase" else none

/-- Handle whose tree holds a single unpatched odm CIL file. -/
def ofsW : Fs := fun p => if p = odmCilPath then some "obase" else none

/-- Handle map with vendor and odm present and no other partitions. -/
def mW2 : ExtFsMap := fun k =>
  if k = "vendor" then some vfsW else if k = "odm" then some ofsW else none

/-- Concrete instance of claim C2 on a two-partition handle map. -/
theorem patch_vendor_cil_single_run_witness :
    getFileInMap (patch_vendor_cil_for_ueventd mW2 true) "vendor" vendorCilPath
        = some ("vbase" ++ ueventd_firmware_rules) ∧
    getFileInMap (patch_vendor_cil_for_ueventd mW2 true) "odm" odmCilPath
        = some ("obase" ++ ueventd_firmware_rules) ∧
    ∃ pre post : String, ueventd_firmware_rules = pre ++ post ∧
      strContains pre markerStr = true ∧
      strStartsWith post "(allow" = true :=
  patch_vendor_cil_single_run mW2 vfsW ofsW "vbase" "obase"
    rfl rfl rfl rfl (by decide) (by decide)

/-- Claim C9: a present vendor handle whose CIL file is missing leaves the
vendor tree wholly unchanged (warning log only, no error, no file created);
with compatible-sepolicy enabled, a present odm handle whose CIL file is
missing likewise leaves the odm tree unchanged (informational log only).
The embedding is a total function, so no error is raised in either case. -/
theorem patch_vendor_cil_missing_file_logs_only (m : ExtFsMap) (c : Bool) :
    (∀ vfs, m "vendor" = some vfs → vfs vendorCilPath = none →
      ∀ q, getFileInMap (patch_vendor_cil_for_ueventd m c) "vendor" q
        = getFileInMap m "vendor" q) ∧
    (∀ ofs, m "odm" = some ofs → ofs odmCilPath = none →
      ∀ q, getFileInMap (patch_vendor_cil_for_ueventd m true) "odm" q
        = getFileInMap m "odm" q) := by
  constructor
  · intro vfs hv hvn q
    have h1 : patch_vendor_cil_for_ueventd m c "vendor" = some vfs := by
      cases c with
      | false =>
        show patchPartCil m "vendor" vendorCilPath "vendor" = some vfs
        rw [patchPartCil_lookup_self, hv]
        simp [patchCilOne_of_missing vfs _ hvn]
      | true =>
        show patchPartCil (patchPartCil m "vendor" vendorCilPath) "odm"
            odmCilPath "vendor" = some vfs
        rw [patchPartCil_lookup_other _ _ _ _ (by decide),
          patchPartCil_lookup_self, hv]
        simp [patchCilOne_of_missing vfs _ hvn]
    simp [getFileInMap, h1, hv]
  · intro ofs ho hon q
    have h1 : patch_vendor_cil_for_ueventd m true "odm" = some ofs := by
      show patchPartCil (patchPartCil m "vendor" vendorCilPath) "odm"
          odmCilPath "odm" = some ofs
      rw [patchPartCil_lookup_self,
        patchPartCil_lookup_other _ _ _ _ (by decide), ho]
      simp [patchCilOne_of_missing ofs _ hon]
    simp [getFileInMap, h1, ho]

/-- Handle with an empty file tree. -/
def emptyFs : Fs := fun _ => none

/-- Handle map where vendor and odm are present but their trees are empty. -/
def mW9 : ExtFsMap := fun k =>
  if k = "vendor" then some emptyFs
  else if k = "odm" then some emptyFs else none

/-- Concrete instance of claim C9: both CIL files missing, nothing changes. -/
theorem patch_vendor_cil_missing_file_logs_only_witness :
    getFileInMap (patch_vendor_cil_for_ueventd mW9 false) "vendor"
        vendorCilPath = getFileInMap mW9 "vendor" vendorCilPath ∧
    getFileInMap (patch_vendor_cil_for_ueventd mW9 true) "odm" odmCilPath
      = getFileInMap mW9 "odm" odmCilPath :=
  ⟨(patch_vendor_cil_missing_file_logs_only mW9 false).1 emptyFs rfl rfl
      vendorCilPath,
   (patch_vendor_cil_missing_file_logs_only mW9 true).2 emptyFs rfl rfl
      odmCilPath⟩

/-- The fixed path of the primary seapp_contexts file. -/
def platSeappPath : Path := ["system", "etc", "selinux", "plat_seapp_contexts"]

/-- The fixed partition-relative seapp_contexts path for vendor and odm. -/
def seappPath (part : String) : Path :=
  [part, "etc", "selinux", part ++ "_seapp_contexts"]

/-- Modelled from the spec: the ext-filesystem handle interface of
`lib/filesystem` (not under `src/`) opens a path in append mode, creating
the file when missing, and a streamed copy plus the written bytes land after
the prior content unaltered. -/
def Fs.appendCreate (fs : Fs) (p : Path) (s : String) : Fs :=
  fun q => if q = p then some (((fs p).getD "") ++ s) else fs q

/-- The compatible-mode per-partition step of `append_seapp_contexts`: skip
when the partition key is absent, skip (log only) when the partition-relative
seapp_contexts file does not exist, otherwise append the fragment plus a
newline to it. -/
def appendSeappPartition (m : ExtFsMap) (fragment : String) (part : String) :
    ExtFsMap :=
  match m part with
  | none => m
  | some pfs =>
    match pfs (seappPath part) with
    | none => m
    | some content =>
      ExtFsMap.set m part
        (Fs.write pfs (seappPath part) (content ++ fragment ++ "\n"))

/-- Embeds `append_seapp_contexts`: the zip entry's bytes become the explicit
argument `fragment`; the lookup `ext_fs[system]` becomes the error branch;
the unconditional plat append uses append-create mode, then in compatible
mode vendor and odm are processed in that order. -/
def append_seapp_contexts (fragment : String) (m : ExtFsMap)
    (compatible_sepolicy : Bool) : Except String ExtFsMap :=
  match m "system" with
  | none => Except.error "KeyError: system"
  | some sfs =>
    let m1 := ExtFsMap.set m "system"
      (Fs.appendCreate sfs platSeappPath (fragment ++ "\n"))
    if compatible_sepolicy then
      Except.ok (appendSeappPartition
        (appendSeappPartition m1 fragment "vendor") fragment "odm")
    else
      Except.ok m1

lemma fs_appendCreate_self (fs : Fs) (p : Path) (s : String) :
    Fs.appendCreate fs p s p = some (((fs p).getD "") ++ s) := by
  simp [Fs.appendCreate]

lemma appendSeappPartition_lookup_other (m : ExtFsMap) (fragment part q :
    String) (h : q ≠ part) : appendSeappPartition m fragment part q = m q := by
  cases hm : m part with
  | none => simp [appendSeappPartition, hm]
  | some pfs =>
    cases hp : pfs (seappPath part) with
    | none => simp [appendSeappPartition, hm, hp]
    | some content => simp [appendSeappPartition, hm, hp, ExtFsMap.set, h]

lemma appendSeappPartition_file_self (m : ExtFsMap) (fragment part : String) :
    getFileInMap (appendSeappPartition m fragment part) part (seappPath part)
      = Option.map (fun c0 => c0 ++ fragment ++ "\n")
          (getFileInMap m part (seappPath part)) := by
  cases hm : m part with
  | none => simp [appendSeappPartition, getFileInMap, hm]
  | some pfs =>
    cases hp : pfs (seappPath part) with
    | none => simp [appendSeappPartition, getFileInMap, hm, hp]
    | some content =>
      simp [appendSeappPartition, getFileInMap, hm, hp, extFsMap_set_self,
        fs_write_self]

lemma getFileInMap_congr (m m2 : ExtFsMap) (part : String) (p : Path)
    (h : m part = m2 part) : getFileInMap m part p = getFileInMap m2 part p := by
  unfold getFileInMap
  rw [h]

lemma append_seapp_system_entry (m : ExtFsMap) (fragment : String) (c : Bool)
    (sfs : Fs) (hs : m "system" = some sfs) :
    ∃ m', append_seapp_contexts fragment m c = Except.ok m' ∧
      m' "system"
        = some (Fs.appendCreate sfs platSeappPath (fragment ++ "\n")) := by
  unfold append_seapp_contexts
  rw [hs]
  cases c with
  | false => exact ⟨_, rfl, extFsMap_set_self m "system" _⟩
  | true =>
    refine ⟨_, rfl, ?_⟩
    rw [appendSeappPartition_lookup_other _ _ _ _ (by decide),
      appendSeappPartition_lookup_other _ _ _ _ (by decide)]
    exact extFsMap_set_self m "system" _

/-- Claim C10: when the handle map has no `system` entry,
`append_seapp_contexts` fails with the dictionary lookup error, whatever the
flag and the other handles are; the error is returned before any filesystem
state is produced. -/
theorem append_seapp_requires_system (m : ExtFsMap) (fragment : String)
    (c : Bool) (h : m "system" = none) :
    append_seapp_contexts fragment m c = Except.error "KeyError: system" := by
  unfold append_seapp_contexts
  rw [h]

/-- Handle map carrying vendor and odm handles but no `system` entry. -/
def mW10 : ExtFsMap := fun k =>
  if k = "vendor" then some vfsW else if k = "odm" then some ofsW else none

/-- Concrete instance of claim C10: vendor and odm present, system absent. -/
theorem append_seapp_requires_system_witness :
    append_seapp_contexts "u:object_r x" mW10 true
      = Except.error "KeyError: system" :=
  append_seapp_requires_system mW10 "u:object_r x" true rfl

/-- Claim C4: in compatible-sepolicy mode, the vendor partition and then the
odm partition each receive the fragment plus a trailing newline in their
partition-relative seapp_contexts file exactly when the partition handle is
in the map and the file exists (the `Option.map` form: `none`, meaning
missing handle or missing file, stays `none` and nothing is appended); a
missing file is only logged and the call still returns successfully. -/
theorem append_seapp_compatible_partitions (m : ExtFsMap) (fragment : String)
    (sfs : Fs) (hs : m "system" = some sfs) :
    ∃ m', append_seapp_contexts fragment m true = Except.ok m' ∧
      getFileInMap m' "vendor" (seappPath "vendor")
        = Option.map (fun c0 => c0 ++ fragment ++ "\n")
            (getFileInMap m "vendor" (seappPath "vendor")) ∧
      getFileInMap m' "odm" (seappPath "odm")
        = Option.map (fun c0 => c0 ++ fragment ++ "\n")
            (getFileInMap m "odm" (seappPath "odm")) := by
  unfold append_seapp_contexts
  rw [hs]
  refine ⟨_, rfl, ?_, ?_⟩
  · rw [getFileInMap_congr _ (appendSeappPartition
        (ExtFsMap.set m "system"
          (Fs.appendCreate sfs platSeappPath (fragment ++ "\n")))
        fragment "vendor") "vendor" _
        (appendSeappPartition_lookup_other _ _ _ _ (by decide)),
      appendSeappPartition_file_self]
    exact congrArg _ (getFileInMap_congr _ m "vendor" _
      (extFsMap_set_other _ _ _ _ (by decide)))
  · rw [appendSeappPartition_file_self,
      getFileInMap_congr _ (ExtFsMap.set m "system"
          (Fs.appendCreate sfs platSeappPath (fragment ++ "\n")))
        "odm" _ (appendSeappPartition_lookup_other _ _ _ _ (by decide)),
      getFileInMap_congr _ m "odm" _ (extFsMap_set_other _ _ _ _ (by decide))]

/-- System handle holding a plat_seapp_contexts file with known content. -/
def sfsW : Fs := fun p => if p = platSeappPath then some "base0\n" else none

/-- Vendor handle holding a vendor seapp_contexts file. -/
def vfsSeappW : Fs :=
  fun p => if p = seappPath "vendor" then some "vseapp0\n" else none

/-- Handle map with system and vendor present (vendor file existing) and odm
absent, for the compatible-mode seapp claim. -/
def mW4 : ExtFsMap := fun k =>
  if k = "system" then some sfsW
  else if k = "vendor" then some vfsSeappW else none

/-- Concrete instance of claim C4: vendor gets the appended fragment, the
absent odm partition stays absent and the call succeeds. -/
theorem append_seapp_compatible_partitions_witness :
    ∃ m', append_seapp_contexts "ctx1" mW4 true = Except.ok m' ∧
      getFileInMap m' "vendor" (seappPath "vendor")
        = Option.map (fun c0 => c0 ++ "ctx1" ++ "\n")
            (getFileInMap mW4 "vendor" (seappPath "vendor")) ∧
      getFileInMap m' "odm" (seappPath "odm")
        = Option.map (fun c0 => c0 ++ "ctx1" ++ "\n")
            (getFileInMap mW4 "odm" (seappPath "odm")) :=
  append_seapp_compatible_partitions mW4 "ctx1" sfsW rfl

/-- Claim C6: one call appends exactly `fragment` plus one newline after the
unaltered prior bytes of `system/etc/selinux/plat_seapp_contexts`, for every
prior content, fragment and flag value. -/
theorem append_seapp_plat_exact (m : ExtFsMap) (fragment : String) (c : Bool)
    (sfs : Fs) (c0 : String) (hs : m "system" = some sfs)
    (h0 : sfs platSeappPath = some c0) :
    ∃ m', append_seapp_contexts fragment m c = Except.ok m' ∧
      getFileInMap m' "system" platSeappPath
        = some (c0 ++ (fragment ++ "\n")) := by
  obtain ⟨m', hrun, hsys⟩ := append_seapp_system_entry m fragment c sfs hs
  refine ⟨m', hrun, ?_⟩
  simp [getFileInMap, hsys, Fs.appendCreate, h0]

/-- Handle map with only the system handle, for the plat append claims. -/
def mW6 : ExtFsMap := fun k => if k = "system" then some sfsW else none

/-- Concrete instance of claim C6 on a one-partition handle map. -/
theorem append_seapp_plat_exact_witness :
    ∃ m', append_seapp_contexts "ctx2" mW6 false = Except.ok m' ∧
      getFileInMap m' "system" platSeappPath
        = some ("base0\n" ++ ("ctx2" ++ "\n")) :=
  append_seapp_plat_exact mW6 "ctx2" false sfsW "base0\n" rfl rfl

/-- Claim C5: `append_seapp_contexts` does not deduplicate: two calls with
the same fragment leave the plat file with the prior content followed by two
copies of the fragment, each newline-terminated. -/
theorem append_seapp_no_dedup (m : ExtFsMap) (fragment : String) (c : Bool)
    (sfs : Fs) (c0 : String) (hs : m "system" = some sfs)
    (h0 : sfs platSeappPath = some c0) :
    ∃ m1 m2, append_seapp_contexts fragment m c = Except.ok m1 ∧
      append_seapp_contexts fragment m1 c = Except.ok m2 ∧
      getFileInMap m2 "system" platSeappPath
        = some (c0 ++ (fragment ++ "\n") ++ (fragment ++ "\n")) := by
  obtain ⟨m1, hrun1, hsys1⟩ := append_seapp_system_entry m fragment c sfs hs
  obtain ⟨m2, hrun2, hsys2⟩ :=
    append_seapp_system_entry m1 fragment c _ hsys1
  refine ⟨m1, m2, hrun1, hrun2, ?_⟩
  simp [getFileInMap, hsys2, Fs.appendCreate, h0]

/-- Concrete instance of claim C5: two runs, two appended copies. -/
theorem append_seapp_no_dedup_witness :
    ∃ m1 m2, append_seapp_contexts "ctx3" mW6 false = Except.ok m1 ∧
      append_seapp_contexts "ctx3" m1 false = Except.ok m2 ∧
      getFileInMap m2 "system" platSeappPath
        = some ("base0\n" ++ ("ctx3" ++ "\n") ++ ("ctx3" ++ "\n")) :=
  append_seapp_no_dedup mW6 "ctx3" false sfsW "base0\n" rfl rfl

/-- Splits a character list at every slash, accumulating the current
component in reverse; embeds the component decomposition that
`PurePosixPath` performs on a relative path string. -/
def splitSlashAux (cur : List Char) : List Char → List (List Char)
  | [] => [cur.reverse]
  | c :: cs =>
    if c = '/' then cur.reverse :: splitSlashAux [] cs
    else splitSlashAux (c :: cur) cs

/-- Embeds `PurePosixPath(s)` for a relative path: split on slashes and drop
empty components and single-dot components. -/
def posixParts (s : String) : List String :=
  ((splitSlashAux [] s.toList).map fun l => String.mk l).filter
    fun c => !(c == "") && !(c == ".")

/-- Embeds the Python expression `output or name`: an absent or empty
override falls back to the entry name. -/
def outputName : Option String → String → String
  | some o, name => if o = "" then name else o
  | none, name => name

/-- State of one ext-filesystem destination tree for `zip_extract`:
directories with their mode bits and files with mode bits and contents. -/
structure ExtState where
  dirs : Path → Option Nat
  files : Path → Option (Nat × String)

/-- Modelled from the spec: `mkdir` of the ext-filesystem handle interface of
`lib/filesystem` (not under `src/`) with `exist_ok` set leaves an existing
directory, and its mode, untouched, and otherwise creates the directory with
the requested mode. -/
def ensureDir (st : ExtState) (p : Path) (mode : Nat) : ExtState :=
  match st.dirs p with
  | some _ => st
  | none =>
    { st with dirs := fun q => if q = p then some mode else st.dirs q }

/-- Recursive creation of every ancestor of a directory path, embedding
`mkdir(..., parents=True, exist_ok=True)`: `done` is the already-processed
ancestor chain, `rest` the components still to create. -/
def mkdirParentsAux (mode : Nat) : ExtState → Path → Path → ExtState
  | st, _, [] => st
  | st, done, c :: cs =>
    mkdirParentsAux mode (ensureDir st (done ++ [c]) mode) (done ++ [c]) cs

/-- Embeds `zip_extract`: the zip entry's bytes become the explicit argument
`entryData`; parent directories of the destination are created first under
`parent_mode`, then the destination file is created under `mode` holding
exactly the entry's bytes. -/
def zip_extract (entryData name : String) (st : ExtState)
    (mode parent_mode : Nat) (output : Option String) : ExtState :=
  let parts := posixParts (outputName output name)
  let st1 := mkdirParentsAux parent_mode st [] parts.dropLast
  { st1 with
    files := fun q =>
      if q = parts then some (mode, entryData) else st1.files q }

lemma ensureDir_files (st : ExtState) (p : Path) (mode : Nat) :
    (ensureDir st p mode).files = st.files := by
  cases h : st.dirs p <;> simp [ensureDir, h]

lemma ensureDir_dirs_self (st : ExtState) (p : Path) (mode : Nat) :
    (ensureDir st p mode).dirs p = some ((st.dirs p).getD mode) := by
  cases h : st.dirs p <;> simp [ensureDir, h]

lemma ensureDir_dirs_other (st : ExtState) (p : Path) (mode : Nat) (q : Path)
    (h : q ≠ p) : (ensureDir st p mode).dirs q = st.dirs q := by
  cases hd : st.dirs p <;> simp [ensureDir, hd, h]

lemma mkdirParentsAux_files (mode : Nat) : ∀ (rest : Path) (st : ExtState)
    (done : Path), (mkdirParentsAux mode st done rest).files = st.files := by
  intro rest
  induction rest with
  | nil => intro st done; rfl
  | cons c cs ih =>
    intro st done
    show (mkdirParentsAux mode (ensureDir st (done ++ [c]) mode)
        (done ++ [c]) cs).files = st.files
    rw [ih, ensureDir_files]

lemma mkdirParentsAux_dirs_frame (mode : Nat) : ∀ (rest : Path)
    (st : ExtState) (done : Path) (q : Path),
    (∀ k, 0 < k → k ≤ rest.length → q ≠ done ++ rest.take k) →
    (mkdirParentsAux mode st done rest).dirs q = st.dirs q := by
  intro rest
  induction rest with
  | nil => intro st done q _; rfl
  | cons c cs ih =>
    intro st done q hq
    show (mkdirParentsAux mode (ensureDir st (done ++ [c]) mode)
        (done ++ [c]) cs).dirs q = st.dirs q
    rw [ih (ensureDir st (done ++ [c]) mode) (done ++ [c]) q ?frame]
    · exact ensureDir_dirs_other st (done ++ [c]) mode q
        (by simpa using hq 1 (by omega) (by simp))
    case frame =>
      intro k hk0 hkl heq
      exact hq (k + 1) (by omega) (Nat.succ_le_succ hkl)
        (by rw [List.take_succ_cons, List.append_cons]; exact heq)

lemma mkdirParentsAux_dirs_created (mode : Nat) : ∀ (rest : Path)
    (st : ExtState) (done : Path) (k : Nat), 0 < k → k ≤ rest.length →
    (mkdirParentsAux mode st done rest).dirs (done ++ rest.take k)
      = some ((st.dirs (done ++ rest.take k)).getD mode) := by
  intro rest
  induction rest with
  | nil =>
    intro st done k hk0 hkl
    simp at hkl
    omega
  | cons c cs ih =>
    intro st done k hk0 hkl
    show (mkdirParentsAux mode (ensureDir st (done ++ [c]) mode)
        (done ++ [c]) cs).dirs (done ++ (c :: cs).take k) = _
    cases k with
    | zero => omega
    | succ k1 =>
      cases k1 with
      | zero =>
        rw [show (c :: cs).take 1 = [c] from rfl]
        rw [mkdirParentsAux_dirs_frame mode cs _ (done ++ [c]) (done ++ [c])
          ?fr]
        · exact ensureDir_dirs_self st (done ++ [c]) mode
        case fr =>
          intro j hj0 hjl heq
          apply_fun List.length at heq
          simp only [List.length_append, List.length_cons, List.length_nil,
            List.length_take] at heq
          omega
      | succ k2 =>
        simp only [List.length_cons] at hkl
        have hpath : done ++ (c :: cs).take (k2 + 1 + 1)
            = (done ++ [c]) ++ cs.take (k2 + 1) := by
          rw [List.take_succ_cons]
          exact (List.append_assoc done [c] (cs.take (k2 + 1))).symm
        rw [hpath]
        rw [ih (ensureDir st (done ++ [c]) mode) (done ++ [c]) (k2 + 1)
          (by omega) (by omega)]
        have hne : (done ++ [c]) ++ cs.take (k2 + 1) ≠ done ++ [c] := by
          intro heq
          apply_fun List.length at heq
          simp only [List.length_append, List.length_cons, List.length_nil,
            List.length_take] at heq
          omega
        rw [ensureDir_dirs_other st (done ++ [c]) mode
          ((done ++ [c]) ++ cs.take (k2 + 1)) hne]

/-- Claim C7: with no output override, `zip_extract` targets the entry's own
name read as a POSIX path; it creates the destination file under the file
mode with exactly the entry's bytes, creates every missing parent directory
of the destination under the parent-directory mode while leaving already
existing directories (and their modes) untouched, and writes no other file. -/
theorem zip_extract_spec (entryData name : String) (st : ExtState)
    (mode pmode : Nat) (parts : Path) (hp : parts = posixParts name) :
    (zip_extract entryData name st mode pmode none).files parts
        = some (mode, entryData) ∧
    (∀ k, 0 < k → k ≤ parts.dropLast.length →
      (zip_extract entryData name st mode pmode none).dirs
          (parts.dropLast.take k)
        = some ((st.dirs (parts.dropLast.take k)).getD pmode)) ∧
    (∀ q, q ≠ parts →
      (zip_extract entryData name st mode pmode none).files q
        = st.files q) := by
  subst hp
  refine ⟨?_, ?_, ?_⟩
  · simp [zip_extract, outputName]
  · intro k hk0 hkl
    have h := mkdirParentsAux_dirs_created pmode
      (posixParts name).dropLast st [] k hk0 hkl
    simpa [zip_extract, outputName] using h
  · intro q hq
    simp [zip_extract, outputName, hq, mkdirParentsAux_files]

/-- Destination tree with no directories and no files. -/
def emptyExtState : ExtState :=
  { dirs := fun _ => none, files := fun _ => none }

/-- Concrete instance of claim C7: extracting entry `files/x.txt` into an
empty tree with file mode `0o644` and parent mode `0o755` creates the
`files` directory at `0o755` and the file at `0o644` with the entry bytes. -/
theorem zip_extract_spec_witness :
    (zip_extract "DATA" "files/x.txt" emptyExtState 0o644 0o755 none).files
        ["files", "x.txt"] = some (0o644, "DATA") ∧
    (zip_extract "DATA" "files/x.txt" emptyExtState 0o644 0o755 none).dirs
        ["files"] = some 0o755 := by
  have h := zip_extract_spec "DATA" "files/x.txt" emptyExtState 0o644 0o755
    ["files", "x.txt"] (by decide)
  exact ⟨h.1, h.2.1 1 (by decide) (by decide)⟩

end AvbrootSetup
